import Mathlib

/-!
Verification of the rendering-composition / batching engine and the widget
tree of the quest-sage client, shallowly embedded from
`src/qs-client/src/graphics/multi_batch.rs` and `src/qs-client/src/ui/widget.rs`.

Coordinates (`f32` in the source) are modelled exactly as rationals.
Texture assets (`Asset<Texture>`) are modelled as natural-number handles;
shaped words (`RenderableWord`) as natural numbers.
-/

namespace QS

/-- A 2-D point (`stretch::geometry::Point<f32>`). -/
abbrev Pt := Rat × Rat

/-- A vertex of a quad (`graphics::Vertex`): position, colour, texture coordinates. -/
structure Vertex where
  position : Rat × Rat × Rat
  color : Rat × Rat × Rat × Rat
  texCoords : Rat × Rat
deriving DecidableEq, Repr

/-- A drawable primitive (`graphics::Renderable`): a quadrilateral of four vertices. -/
inductive Renderable where
  | Quadrilateral (a b c d : Vertex)
deriving DecidableEq, Repr

/-- The composition tree `MultiRenderable` from `multi_batch.rs`. -/
inductive MultiRenderable where
  /-- Render nothing. -/
  | Nothing
  /-- A list of layers; earlier layers are drawn strictly before later ones. -/
  | Layered (layers : List MultiRenderable)
  /-- Items rendered alongside each other with no ordering constraint. -/
  | Adjacent (items : List MultiRenderable)
  /-- A shaped text run at an offset. -/
  | Text (word : Nat) (offset : Pt)
  /-- Quads drawn from one texture. -/
  | Image (texture : Nat) (renderables : List Renderable)

/-- A draw submission handed to the rendering backend: either one text-draw
batch (the accumulated `(offset, word)` pairs, in push order) or one
textured-quad batch. -/
inductive Sub where
  | text (items : List (Pt × Nat))
  | image (tex : Nat) (quads : List Renderable)
deriving DecidableEq, Repr

/-- The mutable accumulation state of `MultiBatchRenderState`: the text
buffer, the image (quad) buffer and the texture currently associated with
the image buffer. -/
structure RState where
  textBuf : List (Pt × Nat)
  imgBuf : List Renderable
  imgTex : Option Nat
deriving DecidableEq, Repr

/-- The initial state built at the start of `MultiBatch::render`. -/
abbrev initState : RState := ⟨[], [], none⟩

/-- `MultiBatchRenderState::perform_render`, with `loaded` modelling which
texture assets are currently ready.

Modelled from the spec: `Asset::if_loaded` lives in `qs_common` (outside the
sources given); per the spec it runs its action iff the underlying asset is
ready, and a not-ready asset means the submission is skipped for this frame.

Transcription: the text buffer, if non-empty, is submitted and cleared;
then, if the quad buffer is non-empty, the texture reference is `take`n
(cleared unconditionally), and only under `if_loaded` are the quads
submitted and the quad buffer `take`n (cleared). -/
def performRender (loaded : Nat → Bool) (s : RState) : RState × List Sub :=
  let textOut : List Sub := if s.textBuf.isEmpty then [] else [Sub.text s.textBuf]
  let textBuf' : List (Pt × Nat) := []
  if s.imgBuf.isEmpty then
    (⟨textBuf', s.imgBuf, s.imgTex⟩, textOut)
  else
    match s.imgTex with
    | none => (⟨textBuf', s.imgBuf, none⟩, textOut)
    | some t =>
      if loaded t then
        (⟨textBuf', [], none⟩, textOut ++ [Sub.image t s.imgBuf])
      else
        (⟨textBuf', s.imgBuf, none⟩, textOut)

mutual

/-- `MultiBatchRenderState::incremental_render`: walk the composition tree,
accumulating text and quads, flushing at layer boundaries and texture
changes. Returns the new state and the submissions emitted. -/
def incr (loaded : Nat → Bool) : MultiRenderable → RState → RState × List Sub
  | .Nothing, s => (s, [])
  | .Layered layers, s =>
    match layers with
    | [] => (s, [])
    | first :: rest =>
      let r1 := incr loaded first s
      let r2 := incrLay loaded rest r1.1
      (r2.1, r1.2 ++ r2.2)
  | .Adjacent items, s => incrAdj loaded items s
  | .Text word offset, s => (⟨s.textBuf ++ [(offset, word)], s.imgBuf, s.imgTex⟩, [])
  | .Image texture renderables, s =>
    match s.imgTex with
    | some tex =>
      if tex ≠ texture then
        let r := performRender loaded s
        (⟨r.1.textBuf, r.1.imgBuf ++ renderables, some texture⟩, r.2)
      else
        (⟨s.textBuf, s.imgBuf ++ renderables, s.imgTex⟩, [])
    | none => (⟨s.textBuf, s.imgBuf ++ renderables, some texture⟩, [])

/-- The `Adjacent` loop: visit items in order with no forced flush. -/
def incrAdj (loaded : Nat → Bool) : List MultiRenderable → RState → RState × List Sub
  | [], s => (s, [])
  | item :: rest, s =>
    let r1 := incr loaded item s
    let r2 := incrAdj loaded rest r1.1
    (r2.1, r1.2 ++ r2.2)

/-- The `Layered` loop after the first element: each subsequent layer is
preceded by a forced flush (`index != 0` in the source). -/
def incrLay (loaded : Nat → Bool) : List MultiRenderable → RState → RState × List Sub
  | [], s => (s, [])
  | layer :: rest, s =>
    let rf := performRender loaded s
    let r1 := incr loaded layer rf.1
    let r2 := incrLay loaded rest r1.1
    (r2.1, rf.2 ++ r1.2 ++ r2.2)

end

/-- `MultiBatch::render`: run `incremental_render` from the empty state and
then one final `perform_render`; the value is the full ordered list of
backend submissions. -/
def renderSubmissions (loaded : Nat → Bool) (renderable : MultiRenderable) : List Sub :=
  let r := incr loaded renderable initState
  let rf := performRender loaded r.1
  r.2 ++ rf.2

/-- An event of the linearized composition tree: a text leaf, an image leaf,
or a forced-flush marker at a `Layered` boundary. -/
inductive Event where
  | txt (offset : Pt) (word : Nat)
  | img (tex : Nat) (quads : List Renderable)
  | cut
deriving DecidableEq, Repr

mutual

/-- Linearize a composition tree into its leaf events, with a `cut` marker
at each `Layered` boundary beyond the first element. -/
def flatten : MultiRenderable → List Event
  | .Nothing => []
  | .Layered layers =>
    match layers with
    | [] => []
    | first :: rest => flatten first ++ flattenLayTail rest
  | .Adjacent items => flattenAdj items
  | .Text word offset => [.txt offset word]
  | .Image texture renderables => [.img texture renderables]

/-- Linearize an `Adjacent` list: plain concatenation, no cuts. -/
def flattenAdj : List MultiRenderable → List Event
  | [] => []
  | item :: rest => flatten item ++ flattenAdj rest

/-- Linearize the tail of a `Layered` list: a cut before every element. -/
def flattenLayTail : List MultiRenderable → List Event
  | [] => []
  | layer :: rest => Event.cut :: (flatten layer ++ flattenLayTail rest)

end

/-- One step of the accumulator, driven by a single event. A `cut` runs
`perform_render`; leaves accumulate exactly as in `incremental_render`. -/
def stepE (loaded : Nat → Bool) (s : RState) : Event → RState × List Sub
  | .txt offset word => (⟨s.textBuf ++ [(offset, word)], s.imgBuf, s.imgTex⟩, [])
  | .img texture renderables =>
    match s.imgTex with
    | some tex =>
      if tex ≠ texture then
        let r := performRender loaded s
        (⟨r.1.textBuf, r.1.imgBuf ++ renderables, some texture⟩, r.2)
      else
        (⟨s.textBuf, s.imgBuf ++ renderables, s.imgTex⟩, [])
    | none => (⟨s.textBuf, s.imgBuf ++ renderables, some texture⟩, [])
  | .cut => performRender loaded s

/-- Run the accumulator over a list of events. -/
def runE (loaded : Nat → Bool) : List Event → RState → RState × List Sub
  | [], s => (s, [])
  | e :: rest, s =>
    let r1 := stepE loaded s e
    let r2 := runE loaded rest r1.1
    (r2.1, r1.2 ++ r2.2)

/-- Number of submissions one flush produces, given whether text is pending
and whether an image run is open. -/
def flushCount (curTex : Option Nat) (hasTxt : Bool) : Nat :=
  (if hasTxt then 1 else 0) + (if curTex.isSome then 1 else 0)

/-- Count the submissions the accumulator emits over an event list (final
end-of-tree flush included), tracking only whether text is pending and
which texture's image run is open. One image submission per maximal
texture-homogeneous image run — runs broken only by cuts and texture
changes, interleaved text does not break them — and one text submission
per maximal stretch of pending text between flushes. -/
def countRun : List Event → Option Nat → Bool → Nat
  | [], curTex, hasTxt => flushCount curTex hasTxt
  | .cut :: rest, curTex, hasTxt => flushCount curTex hasTxt + countRun rest none false
  | .txt _ _ :: rest, curTex, _ => countRun rest curTex true
  | .img t _ :: rest, curTex, hasTxt =>
    match curTex with
    | some t' =>
      if t' ≠ t then flushCount (some t') hasTxt + countRun rest (some t) false
      else countRun rest (some t) hasTxt
    | none => countRun rest (some t) hasTxt

/-- Total submission count predicted for a tree by run-length reasoning. -/
def amendedCount (t : MultiRenderable) : Nat := countRun (flatten t) none false

/-- The kind of a run in the literal leaf sequence. -/
inductive RunKind where
  | txtRun
  | imgRun (tex : Nat)
deriving DecidableEq

/-- Modelled from the spec: the submission count the spec claims, reading
maximal runs literally over the linearized leaf sequence — one per maximal
run of consecutive `Text` leaves and one per maximal run of consecutive
same-texture `Image` leaves, with cuts breaking every run and `Adjacent`
never cutting. -/
def specRunCountAux : Option RunKind → List Event → Nat
  | _, [] => 0
  | _, .cut :: rest => specRunCountAux none rest
  | cur, .txt _ _ :: rest =>
    (if cur = some .txtRun then 0 else 1) + specRunCountAux (some .txtRun) rest
  | cur, .img t _ :: rest =>
    (if cur = some (.imgRun t) then 0 else 1) + specRunCountAux (some (.imgRun t)) rest

/-- Modelled from the spec: claimed total submission count for a tree. -/
def specSubmissionCount (t : MultiRenderable) : Nat := specRunCountAux none (flatten t)

/-- Does this event, if it is an `Image` leaf, carry at least one quad? -/
def imgOk : Event → Bool
  | .img _ quads => !quads.isEmpty
  | _ => true

/-- Does every `Image` leaf of the event list carry at least one quad? -/
def imgsNonempty (evs : List Event) : Bool := evs.all imgOk

/-- The reachable-state invariant of the accumulator when all textures are
loaded: an image texture is recorded exactly when the quad buffer is
non-empty. -/
def Good (s : RState) : Prop := s.imgTex.isSome ↔ s.imgBuf ≠ []

/-- A solved rectangle (`stretch::result::Layout`): location and size. -/
structure Layout where
  locX : Rat
  locY : Rat
  width : Rat
  height : Rat
deriving DecidableEq, Repr

/-- Translate a layout's location by a parent offset
(`layout.location.x += offset.x; layout.location.y += offset.y`). -/
def translateLayout (l : Layout) (offset : Pt) : Layout :=
  ⟨l.locX + offset.1, l.locY + offset.2, l.width, l.height⟩

/-- A `UiElement` trait object, modelled by its observable behaviour:
an identity for event traces, an intrinsic size hint, its render output
per solved rectangle, and whether it consumes a mouse button event
(button modelled as `Nat`, pressed state as `Bool`). -/
structure ElemM where
  id : Nat
  getSize : Nat
  render : Layout → MultiRenderable
  consumes : Nat → Bool → Bool

/-- A pointer event delivered to a `UiElement`. -/
inductive MEv where
  | enter
  | move (pos : Pt)
  | leave
deriving DecidableEq, Repr

/-- A widget node (`Widget` / `WidgetContents`): element, ordered children,
background elements, cached layout, style (abstract), weak invalidation
back-reference (`none` = `Weak::new()` / detached) and hover position. -/
inductive WidgetM where
  | mk (elem : ElemM) (children : List WidgetM) (backgrounds : List ElemM)
       (layout : Option Layout) (style : Nat) (sig : Option Nat) (hover : Option Pt)

def WidgetM.elem : WidgetM → ElemM
  | .mk e _ _ _ _ _ _ => e

def WidgetM.children : WidgetM → List WidgetM
  | .mk _ ch _ _ _ _ _ => ch

def WidgetM.backgrounds : WidgetM → List ElemM
  | .mk _ _ bg _ _ _ _ => bg

def WidgetM.layout : WidgetM → Option Layout
  | .mk _ _ _ lay _ _ _ => lay

def WidgetM.style : WidgetM → Nat
  | .mk _ _ _ _ st _ _ => st

def WidgetM.sig : WidgetM → Option Nat
  | .mk _ _ _ _ _ sg _ => sg

def WidgetM.hover : WidgetM → Option Pt
  | .mk _ _ _ _ _ _ hov => hov

def WidgetM.elemId (w : WidgetM) : Nat := w.elem.id

/-- `Widget::new`: no cached layout, a fresh unattached weak signal
(`Weak::new()`), not hovered. -/
def widgetNew (e : ElemM) (children : List WidgetM) (backgrounds : List ElemM)
    (style : Nat) : WidgetM :=
  .mk e children backgrounds none style none none

/-- `WidgetContents::force_layout`: if the weak back-reference upgrades
(the widget is attached and its UI still lives), set the UI's shared flag;
otherwise do nothing. The result is the list of flag-set events. -/
def forceLayout (live : Nat → Bool) (sig : Option Nat) : List Nat :=
  match sig with
  | some s => if live s then [s] else []
  | none => []

mutual

/-- `Widget::update_force_layout_signal`: rewrite the back-reference of the
whole subtree. -/
def updateSignal (sig : Option Nat) : WidgetM → WidgetM
  | .mk e ch bg lay st _ hov => .mk e (updateSignalList sig ch) bg lay st sig hov

def updateSignalList (sig : Option Nat) : List WidgetM → List WidgetM
  | [] => []
  | c :: rest => updateSignal sig c :: updateSignalList sig rest

end

/-- `WidgetContents::add_child`: propagate the parent's back-reference to
the new subtree, append it to the children, and call `force_layout`.
Returns the updated contents and the flag-set events. -/
def addChild (live : Nat → Bool) (parent : WidgetM) (w : WidgetM) :
    WidgetM × List Nat :=
  match parent with
  | .mk e ch bg lay st sg hov =>
    (.mk e (ch ++ [updateSignal sg w]) bg lay st sg hov, forceLayout live sg)

mutual

/-- All nodes of a widget subtree (the node itself first). -/
def allNodes : WidgetM → List WidgetM
  | .mk e ch bg lay st sg hov => .mk e ch bg lay st sg hov :: allNodesList ch

def allNodesList : List WidgetM → List WidgetM
  | [] => []
  | c :: rest => allNodes c ++ allNodesList rest

end

/-- The four debug border quads (`SIZE = 1`, white, texture coords `[0,0]`)
drawn when a debug line texture is supplied, at the translated layout. -/
def debugQuads (l : Layout) : List Renderable :=
  let x0 := l.locX
  let y0 := -l.locY
  let x1 := l.locX + l.width
  let y1 := -l.locY - l.height
  let color : Rat × Rat × Rat × Rat := (1, 1, 1, 1)
  let tc : Rat × Rat := (0, 0)
  [ Renderable.Quadrilateral
      ⟨(x0, y0, 0), color, tc⟩ ⟨(x0 + 1, y0, 0), color, tc⟩
      ⟨(x0 + 1, y1, 0), color, tc⟩ ⟨(x0, y1, 0), color, tc⟩,
    Renderable.Quadrilateral
      ⟨(x1, y0, 0), color, tc⟩ ⟨(x1 - 1, y0, 0), color, tc⟩
      ⟨(x1 - 1, y1, 0), color, tc⟩ ⟨(x1, y1, 0), color, tc⟩,
    Renderable.Quadrilateral
      ⟨(x0, y0, 0), color, tc⟩ ⟨(x0, y0 + 1, 0), color, tc⟩
      ⟨(x1, y0 + 1, 0), color, tc⟩ ⟨(x1, y0, 0), color, tc⟩,
    Renderable.Quadrilateral
      ⟨(x0, y1, 0), color, tc⟩ ⟨(x0, y1 - 1, 0), color, tc⟩
      ⟨(x1, y1 - 1, 0), color, tc⟩ ⟨(x1, y1, 0), color, tc⟩ ]

/-- The collapse of the collected `Adjacent` items
(`if items.is_empty() { Nothing } else { Adjacent(items) }`). -/
def adjacentOrNothing (items : List MultiRenderable) : MultiRenderable :=
  if items.isEmpty then .Nothing else .Adjacent items

/-- The collapse of the background layer list
(`if layers.len() == 1 { layers.pop().unwrap() } else { Layered(layers) }`). -/
def collapseLayers (layers : List MultiRenderable) : MultiRenderable :=
  if layers.length = 1 then layers.headD .Nothing else .Layered layers

mutual

/-- `Widget::generate_render_info`: `Nothing` without a cached layout;
otherwise the element's output followed by the children's (offset by this
widget's resolved position) as an `Adjacent` group, plus debug border quads
when a debug texture is supplied, placed behind the backgrounds' layers. -/
def genRenderInfo (dbg : Option Nat) (offset : Pt) : WidgetM → MultiRenderable
  | .mk e ch bg lay _ _ _ =>
    match lay with
    | none => .Nothing
    | some l0 =>
      let l := translateLayout l0 offset
      let items :=
        e.render l :: genRenderInfoList dbg (l.locX, l.locY) ch ++
          (match dbg with
           | some tex => [.Image tex (debugQuads l)]
           | none => [])
      let renderable := adjacentOrNothing items
      if bg.isEmpty then
        renderable
      else
        let layers :=
          bg.map (fun b => b.render l) ++
            (match renderable with
             | .Nothing => []
             | r => [r])
        collapseLayers layers

def genRenderInfoList (dbg : Option Nat) (offset : Pt) : List WidgetM → List MultiRenderable
  | [] => []
  | c :: rest => genRenderInfo dbg offset c :: genRenderInfoList dbg offset rest

end

/-- The hover position `process_mouse_move` computes for a pointer
position: the parent-relative position translated into the widget's local
coordinates (`pos - layout.location`), kept when it falls inside the
rectangle (`0 <= local <= size`, on both axes); `none` without a solved
layout. -/
def hoverCalc (lay : Option Layout) (pos : Pt) : Option Pt :=
  match lay with
  | some l =>
    let lx := pos.1 - l.locX
    let ly := pos.2 - l.locY
    if 0 ≤ lx ∧ lx ≤ l.width ∧ 0 ≤ ly ∧ ly ≤ l.height then some (lx, ly) else none
  | none => none

mutual

/-- `Widget::process_mouse_move`: recompute the hover position from this
widget's rectangle, fire enter/move before visiting the children (with the
same, untranslated position), fire leave after, and store the new hover
position. Returns the updated subtree and the element-event trace. -/
def processMouseMove : WidgetM → Pt → WidgetM × List (Nat × MEv)
  | .mk e ch bg lay st sg hov, pos =>
    let newHover : Option Pt := hoverCalc lay pos
    let pre : List (Nat × MEv) :=
      match newHover with
      | some lp => (if hov.isNone then [(e.id, MEv.enter)] else []) ++ [(e.id, MEv.move lp)]
      | none => []
    let rc := processMouseMoveList ch pos
    let post : List (Nat × MEv) :=
      if newHover.isNone ∧ hov.isSome then [(e.id, MEv.leave)] else []
    (.mk e rc.1 bg lay st sg newHover, pre ++ rc.2 ++ post)

def processMouseMoveList : List WidgetM → Pt → List WidgetM × List (Nat × MEv)
  | [], _ => ([], [])
  | c :: rest, pos =>
    let r1 := processMouseMove c pos
    let r2 := processMouseMoveList rest pos
    (r1.1 :: r2.1, r1.2 ++ r2.2)

end

mutual

/-- `Widget::process_mouse_input`: ask this widget's element first, then
the children in declared order, stopping at the first consumer. Returns
whether the event was consumed and the ordered trace of element ids that
were asked. -/
def processMouseInput (b : Nat) (st : Bool) : WidgetM → Bool × List Nat
  | .mk e ch _ _ _ _ _ =>
    if e.consumes b st then (true, [e.id])
    else
      let r := processMouseInputList b st ch
      (r.1, e.id :: r.2)

def processMouseInputList (b : Nat) (st : Bool) : List WidgetM → Bool × List Nat
  | [] => (false, [])
  | c :: rest =>
    let r1 := processMouseInput b st c
    if r1.1 then (true, r1.2)
    else
      let r2 := processMouseInputList b st rest
      (r2.1, r1.2 ++ r2.2)

end

mutual

/-- The elements of a widget tree in depth-first, parent-before-children
(preorder) order. -/
def preorder : WidgetM → List ElemM
  | .mk e ch _ _ _ _ _ => e :: preorderList ch

def preorderList : List WidgetM → List ElemM
  | [] => []
  | c :: rest => preorder c ++ preorderList rest

end

/-- The prefix of a list up to and including its first element satisfying
`p` (the whole list if none does). -/
def takeToFirst (p : α → Bool) : List α → List α
  | [] => []
  | x :: rest => if p x then [x] else x :: takeToFirst p rest

/-- The hover state machine's event table for one widget, as (events before
the children, events after the children): newly inside fires enter then
move; still inside fires only move; newly outside fires leave; otherwise
nothing. -/
def hoverTable (newHover : Option Pt) (oldHover : Option Pt) (id : Nat) :
    List (Nat × MEv) × List (Nat × MEv) :=
  match newHover, oldHover with
  | some lp, some _ => ([(id, MEv.move lp)], [])
  | some lp, none => ([(id, MEv.enter), (id, MEv.move lp)], [])
  | none, some _ => ([], [(id, MEv.leave)])
  | none, none => ([], [])

mutual

/-- Node-wise recomputation of every hover position from the same,
untranslated pointer position; elements, layouts and structure unchanged. -/
def mapHover (pos : Pt) : WidgetM → WidgetM
  | .mk e ch bg lay st sg _ => .mk e (mapHoverList pos ch) bg lay st sg (hoverCalc lay pos)

def mapHoverList (pos : Pt) : List WidgetM → List WidgetM
  | [] => []
  | c :: rest => mapHover pos c :: mapHoverList pos rest

end

mutual

/-- The event trace the hover state machine predicts: each widget's table
events around its children's traces, every widget visited with the same
position. -/
def traceSpec (pos : Pt) : WidgetM → List (Nat × MEv)
  | .mk e ch _ lay _ _ hov =>
    let t := hoverTable (hoverCalc lay pos) hov e.id
    t.1 ++ traceSpecList pos ch ++ t.2

def traceSpecList (pos : Pt) : List WidgetM → List (Nat × MEv)
  | [] => []
  | c :: rest => traceSpec pos c ++ traceSpecList pos rest

end

/-- Iterate `process_mouse_move` over a sequence of pointer positions,
accumulating all element events. -/
def runMoves : List Pt → WidgetM → WidgetM × List (Nat × MEv)
  | [], w => (w, [])
  | p :: ps, w =>
    let r1 := processMouseMove w p
    let r2 := runMoves ps r1.1
    (r2.1, r1.2 ++ r2.2)

/-- The hover/layout invariant: a recorded hover position implies a cached
layout, at every node. -/
def InvHover (w : WidgetM) : Prop :=
  ∀ nd ∈ allNodes w, (WidgetM.hover nd).isSome → (WidgetM.layout nd).isSome

mutual

/-- `Widget::generate_styles` combined with `generate_nodes`: the
`(element size hint, widget style)` pairs of the tree in the order the
layout bridge hands nodes to the solver (each widget after its children). -/
def collectStyles : WidgetM → List (Nat × Nat)
  | .mk e ch _ _ st _ _ => collectStylesList ch ++ [(e.getSize, st)]

def collectStylesList : List WidgetM → List (Nat × Nat)
  | [] => []
  | c :: rest => collectStyles c ++ collectStylesList rest

end

mutual

/-- Write the solver's rectangles back into the tree, consuming them in the
same order `collectStyles` produced the style entries. -/
def assignLayouts : WidgetM → List Layout → WidgetM × List Layout
  | .mk e ch bg lay st sg hov, rects =>
    let rc := assignLayoutsList ch rects
    match rc.2 with
    | r :: rest => (.mk e rc.1 bg (some r) st sg hov, rest)
    | [] => (.mk e rc.1 bg lay st sg hov, [])

def assignLayoutsList : List WidgetM → List Layout → List WidgetM × List Layout
  | [], rects => ([], rects)
  | c :: rest, rects =>
    let r1 := assignLayouts c rects
    let r2 := assignLayoutsList rest r1.2
    (r1.1 :: r2.1, r2.2)

end

/-- An observable action of the UI orchestration. -/
inductive UIEvent where
  | solverInvoked
deriving DecidableEq, Repr

/-- `UI`: the root widget, the target size (abstract), the shared
invalidation flag, and the last pointer position. -/
structure UIM where
  root : WidgetM
  sizeW : Nat
  forceLayoutFlag : Bool
  mousePos : Pt

/-- `UI::layout`: collect the styles, hand them with the target size to the
external solver, write every rectangle back. The event records that the
solver ran. -/
def layoutUI (solver : Nat → List (Nat × Nat) → List Layout) (sizeW : Nat)
    (root : WidgetM) : WidgetM × List UIEvent :=
  ((assignLayouts root (solver sizeW (collectStyles root))).1, [UIEvent.solverInvoked])

/-- `UI::generate_render_info`: the source calls `self.layout(self.size)`
unconditionally — the invalidation flag is not consulted — and then asks
the root widget for its render info. -/
def uiGenerateRenderInfo (solver : Nat → List (Nat × Nat) → List Layout)
    (ui : UIM) (offset : Pt) (dbg : Option Nat) :
    UIM × List UIEvent × MultiRenderable :=
  let r := layoutUI solver ui.sizeW ui.root
  (⟨r.1, ui.sizeW, ui.forceLayoutFlag, ui.mousePos⟩, r.2, genRenderInfo dbg offset r.1)

/-- `UI::mouse_move`: record the position and dispatch to the root. -/
def uiMouseMove (ui : UIM) (pos : Pt) : UIM × List (Nat × MEv) :=
  let r := processMouseMove ui.root pos
  (⟨r.1, ui.sizeW, ui.forceLayoutFlag, pos⟩, r.2)

/-- `UI::mouse_input`: dispatch to the root. -/
def uiMouseInput (ui : UIM) (b : Nat) (st : Bool) : Bool × List Nat :=
  processMouseInput b st ui.root

/-- A sample vertex. -/
def v0 : Vertex := ⟨(0, 0, 0), (1, 1, 1, 1), (0, 0)⟩

/-- A sample quad. -/
def q0 : Renderable := .Quadrilateral v0 v0 v0 v0

/-- A second sample vertex. -/
def v1 : Vertex := ⟨(1, 0, 0), (1, 1, 1, 1), (0, 0)⟩

/-- A second sample quad. -/
def q1 : Renderable := .Quadrilateral v1 v1 v1 v1

/-- A tree on which the literal maximal-run count disagrees with the
accumulator: text, an image, then more text under one `Adjacent` group. -/
def exC1 : MultiRenderable :=
  .Adjacent [.Text 0 (0, 0), .Image 0 [q0], .Text 1 (0, 0)]

/-- An asset environment in which texture `0` is not yet loaded and every
other texture is. -/
def loadedExceptZero : Nat → Bool := fun t => t != 0

/-- Two layers: quads on the not-yet-ready texture `0`, then quads on the
ready texture `1`. -/
def exC3 : MultiRenderable := .Layered [.Image 0 [q0], .Image 1 [q1]]

/-- A no-op element (identity `UiElement`): renders `Nothing`, never
consumes input. -/
def elemNothing : ElemM := ⟨0, 0, fun _ => .Nothing, fun _ _ => false⟩

/-- A sample element that renders a text run and consumes input. -/
def elemA : ElemM := ⟨1, 0, fun _ => .Text 5 (1, 2), fun _ _ => true⟩

/-- A sample background element. -/
def bgElem : ElemM := ⟨2, 0, fun _ => .Text 9 (0, 0), fun _ _ => false⟩

/-- A sample solved rectangle. -/
def layC40 : Layout := ⟨0, 0, 5, 5⟩

/-- A different sample rectangle, the one the sample solver returns. -/
def layC41 : Layout := ⟨1, 2, 3, 4⟩

/-- A single widget with a cached rectangle. -/
def wC4 : WidgetM := .mk elemNothing [] [] (some layC40) 0 none none

/-- A UI whose invalidation flag is clear. -/
def uiC4 : UIM := ⟨wC4, 7, false, (0, 0)⟩

/-- A sample solver that assigns `layC41` to the single node. -/
def solverC4 : Nat → List (Nat × Nat) → List Layout := fun _ _ => [layC41]

/-- Strong induction over composition trees: list constructors recurse
through their members. -/
theorem mrStrongInduction {P : MultiRenderable → Prop}
    (hN : P .Nothing)
    (hL : ∀ layers, (∀ x ∈ layers, P x) → P (.Layered layers))
    (hA : ∀ items, (∀ x ∈ items, P x) → P (.Adjacent items))
    (hT : ∀ w o, P (.Text w o))
    (hI : ∀ t qs, P (.Image t qs)) : ∀ t, P t
  | .Nothing => hN
  | .Layered layers => hL layers fun x hx =>
      have : sizeOf x < sizeOf (MultiRenderable.Layered layers) := by
        have := List.sizeOf_lt_of_mem hx
        simp only [MultiRenderable.Layered.sizeOf_spec]
        omega
      mrStrongInduction hN hL hA hT hI x
  | .Adjacent items => hA items fun x hx =>
      have : sizeOf x < sizeOf (MultiRenderable.Adjacent items) := by
        have := List.sizeOf_lt_of_mem hx
        simp only [MultiRenderable.Adjacent.sizeOf_spec]
        omega
      mrStrongInduction hN hL hA hT hI x
  | .Text w o => hT w o
  | .Image t qs => hI t qs
termination_by t => sizeOf t

/-- Strong induction over widget trees: the hypothesis may assume the
property for every child. -/
theorem widgetStrongInduction {P : WidgetM → Prop}
    (h : ∀ e ch bg lay st sg hov, (∀ c ∈ ch, P c) → P (.mk e ch bg lay st sg hov)) :
    ∀ w, P w
  | .mk e ch bg lay st sg hov => h e ch bg lay st sg hov fun c hc =>
      have : sizeOf c < sizeOf (WidgetM.mk e ch bg lay st sg hov) := by
        have := List.sizeOf_lt_of_mem hc
        simp only [WidgetM.mk.sizeOf_spec]
        omega
      widgetStrongInduction h c
termination_by w => sizeOf w

theorem runE_append (loaded : Nat → Bool) (a b : List Event) (s : RState) :
    runE loaded (a ++ b) s =
      ((runE loaded b (runE loaded a s).1).1,
       (runE loaded a s).2 ++ (runE loaded b (runE loaded a s).1).2) := by
  induction a generalizing s with
  | nil => simp [runE]
  | cons e rest ih => simp [runE, ih]

theorem incrAdj_eq_runE (loaded : Nat → Bool) (l : List MultiRenderable)
    (ih : ∀ x ∈ l, ∀ s, incr loaded x s = runE loaded (flatten x) s) :
    ∀ s, incrAdj loaded l s = runE loaded (flattenAdj l) s := by
  induction l with
  | nil => intro s; simp [incrAdj, flattenAdj, runE]
  | cons x rest ihl =>
    intro s
    have hx := ih x (by simp)
    have hrest := ihl fun y hy => ih y (by simp [hy])
    simp [incrAdj, flattenAdj, runE_append, hx, hrest]

theorem incrLay_eq_runE (loaded : Nat → Bool) (l : List MultiRenderable)
    (ih : ∀ x ∈ l, ∀ s, incr loaded x s = runE loaded (flatten x) s) :
    ∀ s, incrLay loaded l s = runE loaded (flattenLayTail l) s := by
  induction l with
  | nil => intro s; simp [incrLay, flattenLayTail, runE]
  | cons x rest ihl =>
    intro s
    have hx := ih x (by simp)
    have hrest := ihl fun y hy => ih y (by simp [hy])
    simp [incrLay, flattenLayTail, runE, runE_append, stepE, hx, hrest]

/-- `incremental_render` is the event machine run over the linearized
tree. -/
theorem incr_eq_runE (loaded : Nat → Bool) :
    ∀ t s, incr loaded t s = runE loaded (flatten t) s :=
  mrStrongInduction
    (fun s => by simp [incr, flatten, runE])
    (fun layers ih s => by
      cases layers with
      | nil => simp [incr, flatten, runE]
      | cons first rest =>
        have h1 := ih first (by simp)
        have h2 := incrLay_eq_runE loaded rest fun y hy => ih y (by simp [hy])
        simp [incr, flatten, runE_append, h1, h2])
    (fun items ih s => by
      simpa [incr, flatten] using incrAdj_eq_runE loaded items ih s)
    (fun w o s => by simp [incr, flatten, runE, stepE])
    (fun t qs s => by simp [incr, flatten, runE, stepE])

/-- With every texture loaded, a flush from a good state emits exactly one
submission per non-empty buffer and resets the state. -/
theorem performRender_true_count (s : RState) (hg : Good s) :
    (performRender (fun _ => true) s).2.length = flushCount s.imgTex (!s.textBuf.isEmpty) ∧
    (performRender (fun _ => true) s).1 = initState := by
  obtain ⟨tb, ib, it⟩ := s
  unfold Good at hg
  cases ib with
  | nil =>
    have hit : it = none := by
      cases it with
      | none => rfl
      | some t => simp at hg
    subst hit
    cases tb <;> simp [performRender, flushCount, initState]
  | cons q ibs =>
    obtain ⟨t, hit⟩ : ∃ t, it = some t := by
      cases it with
      | none => simp at hg
      | some t => exact ⟨t, rfl⟩
    subst hit
    cases tb <;> simp [performRender, flushCount, initState]

/-- The empty accumulator state is good. -/
theorem good_initState : Good initState := by
  simp [Good, initState]

theorem runE_cons (loaded : Nat → Bool) (e : Event) (rest : List Event) (s : RState) :
    runE loaded (e :: rest) s =
      ((runE loaded rest (stepE loaded s e).1).1,
       (stepE loaded s e).2 ++ (runE loaded rest (stepE loaded s e).1).2) := by
  simp [runE]

/-- With every texture loaded and every image leaf non-empty, the machine's
submission count (final flush included) over an event list is the
run-length count `countRun`, and goodness is preserved. -/
theorem runE_true_count :
    ∀ (evs : List Event) (s : RState), Good s → imgsNonempty evs = true →
      ((runE (fun _ => true) evs s).2.length
          + (performRender (fun _ => true) (runE (fun _ => true) evs s).1).2.length
        = countRun evs s.imgTex (!s.textBuf.isEmpty))
      ∧ Good (runE (fun _ => true) evs s).1 := by
  intro evs
  induction evs with
  | nil =>
    intro s hg _
    refine ⟨?_, by simpa [runE] using hg⟩
    simp [runE, countRun, (performRender_true_count s hg).1]
  | cons e rest ih =>
    intro s hg hne
    have hcons : imgsNonempty (e :: rest) = (imgOk e && imgsNonempty rest) := rfl
    rw [hcons, Bool.and_eq_true] at hne
    have hne1 := hne
    rw [runE_cons]
    cases e with
    | cut =>
      have hflush := performRender_true_count s hg
      have ihr := ih initState good_initState hne1.2
      refine ⟨?_, ?_⟩
      · have h1 := ihr.1
        simp only [stepE, hflush.2, List.length_append, hflush.1, countRun] at h1 ⊢
        simp at h1
        omega
      · have h2 := ihr.2
        simpa [stepE, hflush.2] using h2
    | txt o w =>
      have hg' : Good (⟨s.textBuf ++ [(o, w)], s.imgBuf, s.imgTex⟩ : RState) := hg
      have ihr := ih _ hg' hne1.2
      simp only [stepE] at ihr ⊢
      refine ⟨?_, ihr.2⟩
      have h1 := ihr.1
      have hb : ((s.textBuf ++ [(o, w)] : List (Pt × Nat)).isEmpty) = false := by
        cases s.textBuf <;> simp
      simp only [hb] at h1
      simp only [List.length_append, countRun]
      simpa using h1
    | img t qs =>
      have hq : qs.isEmpty = false := by
        have := hne1.1
        simpa [imgOk] using this
      obtain ⟨tb, ib, it⟩ := s
      cases it with
      | none =>
        have hib : ib = [] := by
          unfold Good at hg
          by_contra hne''
          simp [hne''] at hg
        subst hib
        have hg' : Good (⟨tb, [] ++ qs, some t⟩ : RState) := by
          simp [Good, List.isEmpty_iff] at hq ⊢
          exact hq
        have ihr := ih _ hg' hne1.2
        simp only [stepE] at ihr ⊢
        refine ⟨?_, ihr.2⟩
        have h1 := ihr.1
        simp only [countRun]
        simpa using h1
      | some t' =>
        by_cases hts : t' = t
        · subst hts
          have hib : ib ≠ [] := by
            unfold Good at hg
            simpa using hg.mp (by simp)
          have hg' : Good (⟨tb, ib ++ qs, some t'⟩ : RState) := by
            simp [Good, hib]
          have ihr := ih _ hg' hne1.2
          simp only [stepE] at ihr ⊢
          refine ⟨?_, ?_⟩
          · have h1 := ihr.1
            simp only [countRun]
            simp only [if_neg (by simp : ¬ t' ≠ t')] at *
            simpa using h1
          · simpa using ihr.2
        · have hflush := performRender_true_count ⟨tb, ib, some t'⟩ hg
          have hg' : Good (⟨[], [] ++ qs, some t⟩ : RState) := by
            simp [Good, List.isEmpty_iff] at hq ⊢
            exact hq
          have ihr0 := ih _ hg' hne1.2
          simp only [stepE, if_pos hts, hflush.2, initState] at ihr0 ⊢
          refine ⟨?_, by simpa using ihr0.2⟩
          have h1 := ihr0.1
          simp only [countRun, if_pos hts, List.length_append, hflush.1]
          simp only [List.nil_append] at h1 ⊢
          have hb : (([] : List (Pt × Nat)).isEmpty) = true := by simp
          simp only [hb] at h1
          simp at h1 ⊢
          omega

/-- With all textures loaded and no degenerate quadless image leaves, the
number of backend submissions is the run-length count over the linearized
tree. -/
theorem renderSubmissions_true_length (t : MultiRenderable)
    (h : imgsNonempty (flatten t) = true) :
    (renderSubmissions (fun _ => true) t).length = amendedCount t := by
  have he := incr_eq_runE (fun _ => true) t initState
  have hc := (runE_true_count (flatten t) initState good_initState h).1
  simp only [renderSubmissions, List.length_append, he, amendedCount]
  simpa using hc

/-- Visit one subtree and then flush: the resulting state and all
submissions emitted on the way (the flush's included). -/
def visitFlush (loaded : Nat → Bool) (t : MultiRenderable) (s : RState) :
    RState × List Sub :=
  let r := incr loaded t s
  let rf := performRender loaded r.1
  (rf.1, r.2 ++ rf.2)

@[simp] theorem WidgetM.elem_mk (e ch bg lay st sg hov) :
    (WidgetM.mk e ch bg lay st sg hov).elem = e := rfl

@[simp] theorem WidgetM.children_mk (e ch bg lay st sg hov) :
    (WidgetM.mk e ch bg lay st sg hov).children = ch := rfl

@[simp] theorem WidgetM.backgrounds_mk (e ch bg lay st sg hov) :
    (WidgetM.mk e ch bg lay st sg hov).backgrounds = bg := rfl

@[simp] theorem WidgetM.layout_mk (e ch bg lay st sg hov) :
    (WidgetM.mk e ch bg lay st sg hov).layout = lay := rfl

@[simp] theorem WidgetM.style_mk (e ch bg lay st sg hov) :
    (WidgetM.mk e ch bg lay st sg hov).style = st := rfl

@[simp] theorem WidgetM.sig_mk (e ch bg lay st sg hov) :
    (WidgetM.mk e ch bg lay st sg hov).sig = sg := rfl

@[simp] theorem WidgetM.hover_mk (e ch bg lay st sg hov) :
    (WidgetM.mk e ch bg lay st sg hov).hover = hov := rfl

@[simp] theorem WidgetM.elemId_mk (e ch bg lay st sg hov) :
    (WidgetM.mk e ch bg lay st sg hov).elemId = e.id := rfl

/-- `process_mouse_move` decomposes into the node-wise hover update and the
per-widget event table: the claim-level characterization of the hover state
machine. -/
theorem processMouseMove_eq :
    ∀ w pos, processMouseMove w pos = (mapHover pos w, traceSpec pos w) :=
  widgetStrongInduction fun e ch bg lay st sg hov ih pos => by
    have hl : processMouseMoveList ch pos = (mapHoverList pos ch, traceSpecList pos ch) := by
      induction ch with
      | nil => simp [processMouseMoveList, mapHoverList, traceSpecList]
      | cons c rest ihl =>
        have hc := ih c (by simp) pos
        have hr := ihl fun c' hc' => ih c' (by simp [hc'])
        simp [processMouseMoveList, mapHoverList, traceSpecList, hc, hr]
    simp only [processMouseMove, mapHover, traceSpec, hl, Prod.mk.injEq]
    cases hoverCalc lay pos <;> cases hov <;>
      simp [hoverTable, Option.isNone, Option.isSome]

theorem takeToFirst_append (p : α → Bool) (a b : List α) :
    takeToFirst p (a ++ b) =
      if a.any p then takeToFirst p a else a ++ takeToFirst p b := by
  induction a with
  | nil => simp [takeToFirst]
  | cons x rest ih =>
    by_cases hx : p x = true
    · simp [takeToFirst, hx]
    · simp only [Bool.not_eq_true] at hx
      by_cases hr : rest.any p = true <;> simp [takeToFirst, hx, hr, ih]

theorem takeToFirst_of_any_eq_false (p : α → Bool) (l : List α)
    (h : l.any p = false) : takeToFirst p l = l := by
  induction l with
  | nil => rfl
  | cons x rest ih =>
    simp only [List.any_cons, Bool.or_eq_false_iff] at h
    simp [takeToFirst, h.1, ih h.2]

/-- `process_mouse_input` is a preorder (depth-first, parent-first)
traversal with first-consumer-wins: the result is whether any element in
preorder consumes, and the asked-elements trace is the preorder prefix up
to and including the first consumer. -/
theorem processMouseInput_eq (b : Nat) (st : Bool) :
    ∀ w, processMouseInput b st w =
      ((preorder w).any (fun e => e.consumes b st),
       (takeToFirst (fun e => e.consumes b st) (preorder w)).map ElemM.id) :=
  widgetStrongInduction fun e ch bg lay stl sg hov ih => by
    have hl : processMouseInputList b st ch =
        ((preorderList ch).any (fun e => e.consumes b st),
         (takeToFirst (fun e => e.consumes b st) (preorderList ch)).map ElemM.id) := by
      induction ch with
      | nil => simp [processMouseInputList, preorderList, takeToFirst]
      | cons c rest ihl =>
        have hc := ih c (by simp)
        have hr := ihl fun c' hc' => ih c' (by simp [hc'])
        by_cases hcany : (preorder c).any (fun e => e.consumes b st) = true
        · simp [processMouseInputList, preorderList, hc, hr, hcany,
                takeToFirst_append, List.any_append]
        · simp only [Bool.not_eq_true] at hcany
          simp [processMouseInputList, preorderList, hc, hr, hcany,
                takeToFirst_append, List.any_append,
                takeToFirst_of_any_eq_false _ _ hcany]
    by_cases hcons : e.consumes b st = true
    · simp [processMouseInput, preorder, hcons, takeToFirst]
    · simp only [Bool.not_eq_true] at hcons
      simp [processMouseInput, preorder, hcons, takeToFirst, hl]

theorem allNodesList_mapHover_aux (pos : Pt) (l : List WidgetM)
    (ih : ∀ c ∈ l, allNodes (mapHover pos c) = (allNodes c).map (mapHover pos)) :
    allNodesList (mapHoverList pos l) = (allNodesList l).map (mapHover pos) := by
  induction l with
  | nil => simp [mapHoverList, allNodesList]
  | cons c rest ihl =>
    have hc := ih c (by simp)
    have hr := ihl fun c' hc' => ih c' (by simp [hc'])
    simp [mapHoverList, allNodesList, hc, hr]

/-- The nodes of the hover-updated tree are the hover-updates of the nodes:
`process_mouse_move` visits every widget, node-independently. -/
theorem allNodes_mapHover (pos : Pt) :
    ∀ w, allNodes (mapHover pos w) = (allNodes w).map (mapHover pos) :=
  widgetStrongInduction fun e ch bg lay st sg hov ih => by
    simp [mapHover, allNodes, allNodesList_mapHover_aux pos ch ih]

theorem updateSignalList_sig_aux (sg : Option Nat) (l : List WidgetM)
    (ih : ∀ c ∈ l, ∀ nd ∈ allNodes (updateSignal sg c), nd.sig = sg) :
    ∀ nd ∈ allNodesList (updateSignalList sg l), nd.sig = sg := by
  induction l with
  | nil => simp [updateSignalList, allNodesList]
  | cons c rest ihl =>
    have hc := ih c (by simp)
    have hr := ihl fun c' hc' => ih c' (by simp [hc'])
    intro nd hnd
    simp only [updateSignalList, allNodesList, List.mem_append] at hnd
    rcases hnd with h | h
    · exact hc nd h
    · exact hr nd h

/-- `update_force_layout_signal` rewrites the back-reference of every node
of the subtree. -/
theorem updateSignal_sig (sg : Option Nat) :
    ∀ w, ∀ nd ∈ allNodes (updateSignal sg w), nd.sig = sg :=
  widgetStrongInduction fun e ch bg lay st sg' hov ih nd hnd => by
    simp only [updateSignal, allNodes, List.mem_cons] at hnd
    rcases hnd with h | h
    · simp [h]
    · exact updateSignalList_sig_aux sg ch ih nd h

/-- Every event the hover table emits for a widget carries that widget's
element id. -/
theorem hoverTable_id (nh oh : Option Pt) (id : Nat) (x : Nat × MEv) :
    (x ∈ (hoverTable nh oh id).1 → x.1 = id) ∧
      (x ∈ (hoverTable nh oh id).2 → x.1 = id) := by
  refine ⟨fun h => ?_, fun h => ?_⟩
  · cases nh with
    | none => cases oh <;> simp [hoverTable] at h
    | some lp =>
      cases oh with
      | none =>
        simp [hoverTable] at h
        rcases h with rfl | rfl <;> rfl
      | some _ =>
        simp [hoverTable] at h
        subst h
        rfl
  · cases nh with
    | none =>
      cases oh with
      | none => simp [hoverTable] at h
      | some _ =>
        simp [hoverTable] at h
        subst h
        rfl
    | some lp => cases oh <;> simp [hoverTable] at h

/-- The property that every node carrying element id `n` has no cached
layout and no hover position. -/
def NeverLaid (n : Nat) (w : WidgetM) : Prop :=
  ∀ nd ∈ allNodes w, WidgetM.elemId nd = n →
    WidgetM.layout nd = none ∧ WidgetM.hover nd = none

theorem neverLaid_head {n : Nat} {e ch bg lay st sg hov}
    (h : NeverLaid n (.mk e ch bg lay st sg hov)) :
    e.id = n → lay = none ∧ hov = none := fun hid => by
  have := h (.mk e ch bg lay st sg hov) (by simp [allNodes]) (by simp [hid])
  simpa using this

theorem mem_allNodesList_of_mem {c : WidgetM} {l : List WidgetM} (hc : c ∈ l)
    {nd : WidgetM} (hnd : nd ∈ allNodes c) : nd ∈ allNodesList l := by
  induction l with
  | nil => cases hc
  | cons c' rest ih =>
    simp only [List.mem_cons] at hc
    simp only [allNodesList, List.mem_append]
    rcases hc with rfl | h'
    · exact Or.inl hnd
    · exact Or.inr (ih h')

theorem neverLaid_tail {n : Nat} {e ch bg lay st sg hov}
    (h : NeverLaid n (.mk e ch bg lay st sg hov)) :
    ∀ c ∈ ch, NeverLaid n c := by
  intro c hc nd hnd hid
  refine h nd ?_ hid
  simp only [allNodes, List.mem_cons]
  exact Or.inr (mem_allNodesList_of_mem hc hnd)

theorem traceSpecList_not_mem_aux (n : Nat) (pos : Pt) (l : List WidgetM)
    (ih : ∀ c ∈ l, NeverLaid n c → ∀ ev, (n, ev) ∉ traceSpec pos c)
    (h : ∀ c ∈ l, NeverLaid n c) :
    ∀ ev, (n, ev) ∉ traceSpecList pos l := by
  induction l with
  | nil => simp [traceSpecList]
  | cons c rest ihl =>
    intro ev hmem
    simp only [traceSpecList, List.mem_append] at hmem
    rcases hmem with hm | hm
    · exact ih c (by simp) (h c (by simp)) ev hm
    · exact ihl (fun c' hc' => ih c' (by simp [hc'])) (fun c' hc' => h c' (by simp [hc'])) ev hm

/-- A widget whose element id is everywhere unlaid-out and unhovered gets
no pointer event from one `process_mouse_move` pass. -/
theorem traceSpec_not_mem (n : Nat) (pos : Pt) :
    ∀ w, NeverLaid n w → ∀ ev, (n, ev) ∉ traceSpec pos w :=
  widgetStrongInduction fun e ch bg lay st sg hov ih h ev hmem => by
    have hch := traceSpecList_not_mem_aux n pos ch
      (fun c hc hnl => ih c hc hnl) (neverLaid_tail h)
    simp only [traceSpec, List.mem_append] at hmem
    by_cases hid : e.id = n
    · obtain ⟨hlay, hhov⟩ := neverLaid_head h hid
      subst hlay; subst hhov
      simp only [hoverCalc, hoverTable] at hmem
      rcases hmem with (hm | hm) | hm
      · simp at hm
      · exact hch ev hm
      · simp at hm
    · rcases hmem with (hm | hm) | hm
      · have := (hoverTable_id (hoverCalc lay pos) hov e.id (n, ev)).1 hm
        simp at this
        exact hid this.symm
      · exact hch ev hm
      · have := (hoverTable_id (hoverCalc lay pos) hov e.id (n, ev)).2 hm
        simp at this
        exact hid this.symm

/-- The unlaid-unhovered property is preserved by the hover update (layouts
are unchanged, and a node without a layout computes hover `none`). -/
theorem neverLaid_mapHover (n : Nat) (pos : Pt) (w : WidgetM)
    (h : NeverLaid n w) : NeverLaid n (mapHover pos w) := by
  intro nd hnd hid
  rw [allNodes_mapHover] at hnd
  simp only [List.mem_map] at hnd
  obtain ⟨nd0, hnd0, heq⟩ := hnd
  subst heq
  cases nd0 with
  | mk e ch bg lay st sg hov =>
    simp only [mapHover] at hid ⊢
    simp only [WidgetM.elemId_mk] at hid
    obtain ⟨hlay, _⟩ := h _ hnd0 (by simp [hid])
    simp only [WidgetM.layout_mk] at hlay
    subst hlay
    simp [hoverCalc]

/-- The hover/layout invariant holds of the output of every
`process_mouse_move` pass, unconditionally. -/
theorem invHover_mapHover (pos : Pt) (w : WidgetM) : InvHover (mapHover pos w) := by
  intro nd hnd
  rw [allNodes_mapHover] at hnd
  simp only [List.mem_map] at hnd
  obtain ⟨nd0, _, heq⟩ := hnd
  subst heq
  cases nd0 with
  | mk e ch bg lay st sg hov =>
    simp only [mapHover, WidgetM.hover_mk, WidgetM.layout_mk]
    cases lay with
    | none => simp [hoverCalc]
    | some l => simp

/-- Over any sequence of pointer positions, a widget that is everywhere
unlaid-out (and unhovered) receives no pointer event. -/
theorem runMoves_not_mem (n : Nat) :
    ∀ (ps : List Pt) (w : WidgetM), NeverLaid n w →
      ∀ ev, (n, ev) ∉ (runMoves ps w).2 := by
  intro ps
  induction ps with
  | nil => intro w _ ev; simp [runMoves]
  | cons p rest ih =>
    intro w h ev hmem
    simp only [runMoves, processMouseMove_eq, List.mem_append] at hmem
    rcases hmem with hm | hm
    · exact traceSpec_not_mem n p w h ev hm
    · exact ih (mapHover p w) (neverLaid_mapHover n p w h) ev hm

/-- Claim C1 is false as stated: on `Adjacent [Text, Image, Text]` the
accumulator emits 2 submissions (the text around the image coalesces into
one text batch), while counting one submission per maximal run of
consecutive `Text` leaves plus per maximal run of texture-homogeneous
`Image` leaves predicts 3. -/
theorem claim_C1_counterexample :
    (renderSubmissions (fun _ => true) exC1).length = 2
      ∧ specSubmissionCount exC1 = 3
      ∧ (renderSubmissions (fun _ => true) exC1).length ≠ specSubmissionCount exC1 := by
  refine ⟨by decide, by decide, by decide⟩

/-- Claim C1 (amended): with every texture loaded and no quadless image
leaves, the number of backend submissions equals the run-length count in
which an image run is broken only by a `Layered` cut or a texture change
(interleaved `Text` does not break it), and one text submission is emitted
per maximal stretch of accumulated text between flushes; `Adjacent` never
forces a cut, and only texture change, layer boundary and end-of-tree
trigger a flush. -/
theorem claim_C1_amended (t : MultiRenderable)
    (h : imgsNonempty (flatten t) = true) :
    (renderSubmissions (fun _ => true) t).length = amendedCount t :=
  renderSubmissions_true_length t h

/-- Claim C1 witness: the amended count agrees on a concrete tree. -/
theorem claim_C1_amended_witness :
    imgsNonempty (flatten (.Adjacent [.Image 0 [q0], .Text 3 (0, 0)])) = true
      ∧ (renderSubmissions (fun _ => true)
          (.Adjacent [.Image 0 [q0], .Text 3 (0, 0)])).length
        = amendedCount (.Adjacent [.Image 0 [q0], .Text 3 (0, 0)]) :=
  ⟨by decide, claim_C1_amended (.Adjacent [.Image 0 [q0], .Text 3 (0, 0)]) (by decide)⟩

/-- Claim C2: rendering `Layered [A, B, C]` visits A and flushes, visits B
from the flushed state and flushes, then visits C followed by the final
end-of-tree flush — so every submission generated while visiting A is
emitted before any submission from B, and likewise B before C. -/
theorem claim_C2 (loaded : Nat → Bool) (A B C : MultiRenderable) :
    renderSubmissions loaded (.Layered [A, B, C]) =
      (visitFlush loaded A initState).2
        ++ (visitFlush loaded B (visitFlush loaded A initState).1).2
        ++ (visitFlush loaded C
              (visitFlush loaded B (visitFlush loaded A initState).1).1).2 := by
  simp [renderSubmissions, incr, incrLay, visitFlush]

/-- Claim C3 names a code bug: flushing with a not-yet-ready texture clears
only the texture reference and leaves the quads buffered (the `take` of the
quad buffer sits inside the `if_loaded` closure), so the skipped quads are
not dropped — they reappear inside the next image submission, under the
next texture. -/
theorem claim_C3_bug :
    performRender loadedExceptZero ⟨[], [q0], some 0⟩ = (⟨[], [q0], none⟩, [])
      ∧ renderSubmissions loadedExceptZero exC3 = [Sub.image 1 [q0, q1]] := by
  refine ⟨by decide, by decide⟩

/-- Claim C4 names a code bug: `UI::generate_render_info` invokes the
layout solver and rewrites the cached rectangles unconditionally — here on
a UI whose invalidation flag is `false` — instead of checking the shared
flag first; the flag is written by `force_layout` but never read. -/
theorem claim_C4_bug :
    uiC4.forceLayoutFlag = false
      ∧ (uiGenerateRenderInfo solverC4 uiC4 (0, 0) none).2.1 = [UIEvent.solverInvoked]
      ∧ WidgetM.layout (uiGenerateRenderInfo solverC4 uiC4 (0, 0) none).1.root
          = some layC41
      ∧ (uiGenerateRenderInfo solverC4 uiC4 (0, 0) none).1.forceLayoutFlag = false := by
  refine ⟨rfl, rfl, rfl, rfl⟩

/-- Claim C5: two adjacent image nodes with the same texture coalesce into
exactly one submission carrying the concatenated quads in order; with
different textures they produce exactly two submissions, first texture
first. -/
theorem claim_C5 (loaded : Nat → Bool) (t1 t2 : Nat) (q1s q2s : List Renderable)
    (h1 : loaded t1 = true) (h2 : loaded t2 = true)
    (hq1 : q1s ≠ []) (hq2 : q2s ≠ []) :
    (t1 = t2 →
      renderSubmissions loaded (.Adjacent [.Image t1 q1s, .Image t2 q2s])
        = [Sub.image t1 (q1s ++ q2s)])
    ∧ (t1 ≠ t2 →
      renderSubmissions loaded (.Adjacent [.Image t1 q1s, .Image t2 q2s])
        = [Sub.image t1 q1s, Sub.image t2 q2s]) := by
  constructor
  · intro heq
    subst heq
    have e1 : (q1s ++ q2s).isEmpty = false := by
      cases q1s
      · exact absurd rfl hq1
      · simp
    simp [renderSubmissions, incr, incrAdj, performRender, e1, h1]
  · intro hne
    have e1 : q1s.isEmpty = false := by
      cases q1s
      · exact absurd rfl hq1
      · simp
    have e2 : q2s.isEmpty = false := by
      cases q2s
      · exact absurd rfl hq2
      · simp
    simp [renderSubmissions, incr, incrAdj, performRender, e1, e2, h1, h2, hne]

/-- Claim C5 witness: concrete same-texture pairs coalesce and
different-texture pairs split, on sample quads. -/
theorem claim_C5_witness :
    renderSubmissions (fun _ => true) (.Adjacent [.Image 0 [q0], .Image 1 [q1]])
      = [Sub.image 0 [q0], Sub.image 1 [q1]] :=
  (claim_C5 (fun _ => true) 0 1 [q0] [q1] rfl rfl (by decide) (by decide)).2 (by decide)

/-- Claim C6: mouse button dispatch is the depth-first parent-first
traversal with first-consumer-wins — the result is whether any element in
preorder consumes the event, and the elements asked are exactly the
preorder prefix up to and including the first consumer, so a consuming
parent's children are never asked and with no consumer the result is
`false` after asking everyone. -/
theorem claim_C6 (b : Nat) (st : Bool) (w : WidgetM) :
    processMouseInput b st w =
      ((preorder w).any (fun e => e.consumes b st),
       (takeToFirst (fun e => e.consumes b st) (preorder w)).map ElemM.id) :=
  processMouseInput_eq b st w

/-- Claim C7: `process_mouse_move` equals the hover state machine — every
widget's hover position is recomputed from the same untranslated position
(the node-wise `mapHover`), and the event trace is the per-widget table
(newly inside fires enter then move, still inside fires only move, newly
outside fires leave) around the children's traces; every widget in the
tree is visited. -/
theorem claim_C7 (w : WidgetM) (pos : Pt) :
    processMouseMove w pos = (mapHover pos w, traceSpec pos w)
      ∧ allNodes (processMouseMove w pos).1 = (allNodes w).map (mapHover pos) := by
  refine ⟨processMouseMove_eq w pos, ?_⟩
  rw [processMouseMove_eq w pos]
  exact allNodes_mapHover pos w

/-- Claim C8: a widget without a cached layout renders `Nothing`; with a
layout and non-empty backgrounds the result is a `Layered` sequence of the
backgrounds' outputs (oldest first) followed by the widget's own `Adjacent`
content; the empty combination collapses to `Nothing` and a single-element
layer list collapses to that element. -/
theorem claim_C8 (e : ElemM) (ch : List WidgetM) (bg : List ElemM)
    (lay : Option Layout) (st : Nat) (sg : Option Nat) (hov : Option Pt) (off : Pt) :
    (lay = none → genRenderInfo none off (.mk e ch bg lay st sg hov) = .Nothing)
    ∧ (∀ l, lay = some l → bg ≠ [] →
        genRenderInfo none off (.mk e ch bg lay st sg hov) =
          .Layered (bg.map (fun b => b.render (translateLayout l off)) ++
            [.Adjacent (e.render (translateLayout l off) ::
              genRenderInfoList none
                ((translateLayout l off).locX, (translateLayout l off).locY) ch)]))
    ∧ adjacentOrNothing [] = .Nothing
    ∧ (∀ r, collapseLayers [r] = r) := by
  refine ⟨?_, ?_, by simp [adjacentOrNothing], fun r => by simp [collapseLayers]⟩
  · intro hl
    subst hl
    simp [genRenderInfo]
  · intro l hl hbg
    subst hl
    have hbg' : bg.isEmpty = false := by
      cases bg
      · exact absurd rfl hbg
      · simp
    have hlen : (bg.map (fun b =>
        b.render (translateLayout l off))).length + 1 ≠ 1 := by
      simp
      intro hb
      exact hbg hb
    simp only [genRenderInfo, hbg', Bool.false_eq_true, if_false, List.append_nil]
    rw [show adjacentOrNothing (e.render (translateLayout l off) ::
        genRenderInfoList none
          ((translateLayout l off).locX, (translateLayout l off).locY) ch)
      = MultiRenderable.Adjacent (e.render (translateLayout l off) ::
        genRenderInfoList none
          ((translateLayout l off).locX, (translateLayout l off).locY) ch) from by
      simp [adjacentOrNothing]]
    simp only [collapseLayers, List.length_append, List.length_singleton, hlen,
      if_false]

/-- Claim C8 witness: a concrete widget with one background layers the
background behind its own content. -/
theorem claim_C8_witness :
    genRenderInfo none (0, 0) (.mk elemA [] [bgElem] (some layC40) 0 none none)
      = .Layered [.Text 9 (0, 0), .Adjacent [.Text 5 (1, 2)]] := by
  have h := (claim_C8 elemA [] [bgElem] (some layC40) 0 none none (0, 0)).2.1
    layC40 rfl (by simp)
  simpa [genRenderInfoList, elemA, bgElem] using h

/-- Claim C9: `add_child` appends exactly the new subtree with the parent's
current back-reference propagated to its every node, and emits exactly one
invalidation signal when the back-reference upgrades to a live UI — and
silently none (no error) when the widget is detached or the UI is gone. -/
theorem claim_C9 (live : Nat → Bool) (e : ElemM) (ch : List WidgetM)
    (bg : List ElemM) (lay : Option Layout) (st : Nat) (sg : Option Nat)
    (hov : Option Pt) (w : WidgetM) :
    WidgetM.children (addChild live (.mk e ch bg lay st sg hov) w).1
        = ch ++ [updateSignal sg w]
    ∧ (addChild live (.mk e ch bg lay st sg hov) w).2
        = (match sg with | some s => if live s then [s] else [] | none => [])
    ∧ ((addChild live (.mk e ch bg lay st sg hov) w).2).length
        = (match sg with | some s => if live s then 1 else 0 | none => 0)
    ∧ (∀ nd ∈ allNodes (updateSignal sg w), WidgetM.sig nd = sg) := by
  refine ⟨by simp [addChild], ?_, ?_, updateSignal_sig sg w⟩
  · cases sg <;> simp [addChild, forceLayout]
  · cases sg with
    | none => simp [addChild, forceLayout]
    | some s => by_cases hs : live s = true <;> simp [addChild, forceLayout, hs]

/-- Claim C9 witness: a live attached parent emits exactly the one signal. -/
theorem claim_C9_witness :
    (addChild (fun _ => true) (.mk elemNothing [] [] none 0 (some 3) none)
        (widgetNew elemA [] [] 0)).2 = [3] := by
  have h := claim_C9 (fun _ => true) elemNothing [] [] none 0 (some 3) none
    (widgetNew elemA [] [] 0)
  simpa using h.2.1

/-- Claim C10: if every node carrying element id `n` is unlaid-out and
unhovered, no pointer-move sequence ever delivers an event to that element;
the hover-implies-layout invariant holds of every `process_mouse_move`
output; and `Widget::new` starts with no layout and no hover. -/
theorem claim_C10 (n : Nat) (w : WidgetM) (ps : List Pt) (h : NeverLaid n w) :
    (∀ ev, (n, ev) ∉ (runMoves ps w).2)
    ∧ (∀ (w' : WidgetM) (pos : Pt), InvHover (processMouseMove w' pos).1)
    ∧ (∀ (e' : ElemM) (ch' : List WidgetM) (bg' : List ElemM) (st' : Nat),
        WidgetM.layout (widgetNew e' ch' bg' st') = none
          ∧ WidgetM.hover (widgetNew e' ch' bg' st') = none) := by
  refine ⟨runMoves_not_mem n ps w h, fun w' pos => ?_, fun e' ch' bg' st' => ⟨rfl, rfl⟩⟩
  rw [processMouseMove_eq]
  exact invHover_mapHover pos w'

/-- Claim C10 witness: a fresh, never-laid-out widget receives no enter
event over a concrete move sequence. -/
theorem claim_C10_witness :
    (0, MEv.enter) ∉ (runMoves [(1, 1), (50, 50)] (widgetNew elemNothing [] [] 0)).2 := by
  have hnl : NeverLaid 0 (widgetNew elemNothing [] [] 0) := by
    intro nd hnd hid
    simp only [widgetNew, allNodes, allNodesList, List.mem_cons,
      List.not_mem_nil, or_false] at hnd
    subst hnd
    simp [widgetNew]
  exact (claim_C10 0 (widgetNew elemNothing [] [] 0) [(1, 1), (50, 50)] hnl).1 MEv.enter

end QS
